import Mathlib

/-!
Verification of the content-resolution pipeline of `nonebot-plugin-parser`.

Shallow embedding of the two source files of the repository:
- `src/nonebot_plugin_parser/matchers/__init__.py` (keyword registration,
  result cache usage, and the unified `parser_handler`), and
- `src/nonebot_plugin_parser/parsers/xiaohongshu.py` (platform parser:
  URL normalization, embedded-state extraction, schema normalization,
  content assembly).

Python exceptions are modelled with `Except PyError`; Python `dict` and the
bounded `LimitedSizeDict` are modelled as insertion-ordered association
lists; strings handled character-wise are modelled as `List Char`.
-/

namespace NonebotParser

/-- Python exception classes reachable in the embedded code: the plugin's
`ParseException(reason)`, and the builtin `KeyError`, `IndexError` and
`json.JSONDecodeError`. -/
inductive PyError where
  | parseException (reason : String)
  | keyError (key : String)
  | indexError
  | jsonDecodeError (msg : String)
deriving DecidableEq, Repr

/-- Modelled from the spec: the `Author` value object of the canonical
content model (`base.py` is not part of the sources; spec section 3 gives
`Author = (name, avatarUrl: optional)`). -/
structure Author where
  name : String
  avatarUrl : Option String
deriving DecidableEq, Repr

/-- Modelled from the spec: the `Content` tagged union of the canonical
content model, spec section 3: `Text(body) | Image(url) | Video(url, coverUrl)`.
`create_image_contents` maps URLs to `image` items and `create_video_content`
builds a single `video` item. -/
inductive Content where
  | text (body : String)
  | image (url : String)
  | video (url : String) (coverUrl : Option String)
deriving DecidableEq, Repr

/-- Modelled from the spec: the `ParseResult` record of the canonical content
model, spec section 3 (the platform tag is omitted: both embedded code paths
produce the same platform). `timestamp` defaults to `none` when the parser
passes no timestamp. -/
structure ParseResult where
  title : String
  text : String
  author : Author
  contents : List Content
  timestamp : Option Int := none
deriving DecidableEq, Repr

/-! ### Association-list primitives

Python `dict` preserves insertion order; assignment to an existing key
replaces the value in place, assignment to a fresh key appends. Lookup
returns the value of the (unique) matching key; we model lookup as
first-match so the definitions are total on arbitrary lists. -/

/-- First-match lookup in an insertion-ordered association list. -/
def lookupList {K V : Type} [DecidableEq K] : List (K × V) → K → Option V
  | [], _ => none
  | p :: ps, k => if p.1 = k then some p.2 else lookupList ps k

/-- Replace the value of the first occurrence of key `k` (Python dict
assignment to an existing key: position kept, value replaced). -/
def setValueList {K V : Type} [DecidableEq K] : List (K × V) → K → V → List (K × V)
  | [], _, _ => []
  | p :: ps, k, v => if p.1 = k then (k, v) :: ps else p :: setValueList ps k v

/-- Python dict assignment `m[k] = v`: replace in place if present, else
append at the end. -/
def dictAssign {K V : Type} [DecidableEq K] (m : List (K × V)) (k : K) (v : V) :
    List (K × V) :=
  match lookupList m k with
  | some _ => setValueList m k v
  | none => m ++ [(k, v)]

/-- Value of the last entry with key `k` in a registration sequence. -/
def lastValue {K V : Type} [DecidableEq K] : List (K × V) → K → Option V
  | [], _ => none
  | p :: ps, k =>
    match lastValue ps k with
    | some v => some v
    | none => if p.1 = k then some p.2 else none

/-! ### LimitedSizeDict (the result cache primitive)

Modelled from the spec: `LimitedSizeDict` lives in the repository's
`utils.py`, which is not part of the sources. Spec sections 3 and 4.3: a
bounded, insertion-ordered key-to-value store; `get` has no side effect;
`put` inserts and evicts the least-recently-inserted entry when the
capacity is exceeded (FIFO, not LRU-on-read); `clear` empties it. -/

structure LimitedSizeDict (K V : Type) where
  maxSize : Nat
  entries : List (K × V)
deriving DecidableEq, Repr

/-- Modelled from the spec: `get(key) -> ParseResult | none`, no side effect. -/
def LimitedSizeDict.get? {K V : Type} [DecidableEq K]
    (c : LimitedSizeDict K V) (k : K) : Option V :=
  lookupList c.entries k

/-- Modelled from the spec: `put(key, value)` inserts, evicting the oldest
entry if the capacity is exceeded; writing to an existing key replaces the
value in place (no eviction needed, the size is unchanged). -/
def LimitedSizeDict.insert {K V : Type} [DecidableEq K]
    (c : LimitedSizeDict K V) (k : K) (v : V) : LimitedSizeDict K V :=
  match lookupList c.entries k with
  | some _ => { c with entries := setValueList c.entries k v }
  | none =>
    { c with entries :=
        if c.maxSize < (c.entries ++ [(k, v)]).length
        then (c.entries ++ [(k, v)]).tail
        else c.entries ++ [(k, v)] }

/-- Modelled from the spec: `clear()` empties the cache entirely. -/
def LimitedSizeDict.clear {K V : Type} (c : LimitedSizeDict K V) :
    LimitedSizeDict K V :=
  { c with entries := [] }

/-- Fold a sequence of insertions into the dict. -/
def insertMany {K V : Type} [DecidableEq K]
    (c : LimitedSizeDict K V) (kvs : List (K × V)) : LimitedSizeDict K V :=
  kvs.foldl (fun acc p => acc.insert p.1 p.2) c

/-- `_RESULT_CACHE = LimitedSizeDict[str, ParseResult](max_size=50)`:
the process-wide result cache, created empty with capacity 50. -/
def resultCacheInit : LimitedSizeDict String ParseResult :=
  ⟨50, []⟩

/-! ### Parser registration (`register_parser_matcher`)

A parser class carries a class-level `patterns : list[tuple[str, str]]` of
(keyword, regex) pairs. Parser instances are identified by a numeric id
(one instance per enabled class). `register_parser_matcher` iterates the
enabled classes in order and, for each `(keyword, _)` in `cls.patterns`,
executes the dict assignment `KEYWORD_PARSER_MAP[keyword] = parser`. -/

structure ParserClass where
  pid : Nat
  patterns : List (String × String)
deriving DecidableEq, Repr

/-- The flattened registration sequence: for each enabled class in order,
its `(keyword, parser)` pairs in pattern order. -/
def registrations : List ParserClass → List (String × Nat)
  | [] => []
  | c :: cs => c.patterns.map (fun p => (p.1, c.pid)) ++ registrations cs

/-- `KEYWORD_PARSER_MAP` as built by `register_parser_matcher`: successive
Python dict assignments over the registration sequence. -/
def buildKeywordMap (classes : List ParserClass) : List (String × Nat) :=
  (registrations classes).foldl (fun m r => dictAssign m r.1 r.2) []

/-- Modelled from the spec: the link detector (`on_keyword_regex` in the
repository's `matchers/rule.py`, not part of the sources) is constructed
from exactly the enabled classes' patterns and only produces `SearchResult`s
whose keyword is one of those registered keywords. -/
def detectorKeywordOk (classes : List ParserClass) (kw : String) : Prop :=
  lookupList (registrations classes) kw ≠ none

/-! ### The unified handler (`parser_handler`)

`parse` abstracts `parser.parse(keyword, searched)` for the parser instance
selected from the keyword map; `render` abstracts the rendering loop
(`get_renderer(...)` plus `render_messages`/`send`). The `_message_reaction`
calls are pure side effects towards the chat adapter and are modelled as
no-ops. The handler returns the cache state it leaves behind together with
the normal result or the propagated exception. -/

def parserHandler (keywordMap : List (String × Nat))
    (parse : Nat → String → Except PyError ParseResult)
    (render : ParseResult → Except PyError Unit)
    (cache : LimitedSizeDict String ParseResult)
    (kw cacheKey : String) :
    LimitedSizeDict String ParseResult × Except PyError ParseResult :=
  match cache.get? cacheKey with
  | some result =>
    match render result with
    | .error e => (cache, .error e)
    | .ok _ => (cache.insert cacheKey result, .ok result)
  | none =>
    match lookupList keywordMap kw with
    | none => (cache, .error (.keyError kw))
    | some pid =>
      match parse pid cacheKey with
      | .error e => (cache, .error e)
      | .ok result =>
        match render result with
        | .error e => (cache, .error e)
        | .ok _ => (cache.insert cacheKey result, .ok result)

/-! ### XiaoHongShu parser: stream variant selection

`Stream` holds the codec variant lists (`list[dict[str, Any]] | None`); the
entries of each list are JSON objects, modelled as association lists of
string key-value pairs, `x["masterUrl"]` being the only access the code
performs. -/

/-- Python `d[k]` on a JSON object: `KeyError` when the key is absent. -/
def dictGetItem (d : List (String × String)) (k : String) :
    Except PyError String :=
  match lookupList d k with
  | some v => .ok v
  | none => .error (.keyError k)

/-- `class Stream(Struct)`: codec variant lists, each defaulting to `None`.
Field order as in the source: h264, h265, av1, h266. -/
structure Stream where
  h264 : Option (List (List (String × String))) := none
  h265 : Option (List (List (String × String))) := none
  av1 : Option (List (List (String × String))) := none
  h266 : Option (List (List (String × String))) := none
deriving DecidableEq, Repr

/-- `class Media(Struct)`. -/
structure Media where
  stream : Stream
deriving DecidableEq, Repr

/-- `class Video(Struct)`. -/
structure Video where
  media : Media
deriving DecidableEq, Repr

/-- `Video.video_url`: try the variant lists in the fixed order
h265, h264, av1, h266 (a `None` or empty list is falsy and is skipped),
return `[0]["masterUrl"]` of the first truthy list, or `None` when no
variant list is truthy. -/
def Video.video_url (v : Video) : Except PyError (Option String) :=
  match v.media.stream.h265 with
  | some (d :: _) => (dictGetItem d "masterUrl").map some
  | _ =>
    match v.media.stream.h264 with
    | some (d :: _) => (dictGetItem d "masterUrl").map some
    | _ =>
      match v.media.stream.av1 with
      | some (d :: _) => (dictGetItem d "masterUrl").map some
      | _ =>
        match v.media.stream.h266 with
        | some (d :: _) => (dictGetItem d "masterUrl").map some
        | _ => .ok none

/-! ### XiaoHongShu parser: `/explore/` endpoint note schema -/

/-- The local `class Image(Struct)` of `_parse_explore`. -/
structure ExploreImage where
  urlDefault : String
deriving DecidableEq, Repr

/-- The local `class User(Struct)` of `_parse_explore`. -/
structure ExploreUser where
  nickname : String
  avatar : String
deriving DecidableEq, Repr

/-- The local `class NoteDetail(Struct)` of `_parse_explore`. -/
structure NoteDetail where
  type : String
  title : String
  desc : String
  user : ExploreUser
  imageList : List ExploreImage := []
  video : Option Video := none
deriving DecidableEq, Repr

/-- `NoteDetail.image_urls`: `urlDefault` of each image, in list order. -/
def NoteDetail.image_urls (nd : NoteDetail) : List String :=
  nd.imageList.map (fun i => i.urlDefault)

/-- `NoteDetail.video_url`: `None` unless `type == "video"` and a video
payload is present; otherwise delegate to `Video.video_url`. -/
def NoteDetail.video_url (nd : NoteDetail) : Except PyError (Option String) :=
  match nd.video with
  | none => .ok none
  | some v => if nd.type = "video" then v.video_url else .ok none

/-- Content assembly of `_parse_explore`: a truthy video URL yields a single
Video item whose cover is `image_urls[0] if image_urls else None`; otherwise
one Image item per image URL in source order (an empty list yields no
items). -/
def exploreContents (nd : NoteDetail) : Except PyError (List Content) :=
  match nd.video_url with
  | .error e => .error e
  | .ok (some u) =>
    if u = "" then .ok (nd.image_urls.map Content.image)
    else .ok [Content.video u nd.image_urls.head?]
  | .ok none => .ok (nd.image_urls.map Content.image)

/-- The `ParseResult` built at the end of `_parse_explore` (no timestamp is
passed). -/
def exploreResult (nd : NoteDetail) : Except PyError ParseResult :=
  match exploreContents nd with
  | .error e => .error e
  | .ok contents =>
    .ok { title := nd.title, text := nd.desc,
          author := { name := nd.user.nickname, avatarUrl := some nd.user.avatar },
          contents := contents }

/-! ### XiaoHongShu parser: `/discovery/item/` endpoint note schema -/

/-- The local `class Image(Struct)` of `_parse_discovery`. -/
structure DiscoveryImage where
  url : String
  urlSizeLarge : Option String := none
deriving DecidableEq, Repr

/-- The local `class User(Struct)` of `_parse_discovery`. -/
structure DiscoveryUser where
  nickName : String
  avatar : String
deriving DecidableEq, Repr

/-- The local `class NoteData(Struct)` of `_parse_discovery`. -/
structure NoteData where
  type : String
  title : String
  desc : String
  user : DiscoveryUser
  time : Int
  lastUpdateTime : Int
  imageList : List DiscoveryImage := []
  video : Option Video := none
deriving DecidableEq, Repr

/-- `NoteData.image_urls`: the (watermarked) `url` of each image in order. -/
def NoteData.image_urls (nd : NoteData) : List String :=
  nd.imageList.map (fun i => i.url)

/-- `NoteData.video_url`: as in the explore schema. -/
def NoteData.video_url (nd : NoteData) : Except PyError (Option String) :=
  match nd.video with
  | none => .ok none
  | some v => if nd.type = "video" then v.video_url else .ok none

/-- The local `class NormalNotePreloadData(Struct)` of `_parse_discovery`. -/
structure NormalNotePreloadData where
  title : String
  desc : String
  imagesList : List DiscoveryImage := []
deriving DecidableEq, Repr

/-- `NormalNotePreloadData.image_urls`: `item.urlSizeLarge or item.url`
(the `or` falls back on a `None` or empty `urlSizeLarge`). -/
def NormalNotePreloadData.image_urls (pd : NormalNotePreloadData) : List String :=
  pd.imagesList.map (fun i =>
    match i.urlSizeLarge with
    | some u => if u = "" then i.url else u
    | none => i.url)

/-- Content assembly of `_parse_discovery`: for a truthy video URL the cover
is `img_urls[0]` — taken from the preload data when `normalNotePreloadData`
is truthy, else from the note's watermarked list — which raises `IndexError`
on an empty list; otherwise one Image item per watermarked image URL. -/
def discoveryContents (nd : NoteData) (preload : Option NormalNotePreloadData) :
    Except PyError (List Content) :=
  match nd.video_url with
  | .error e => .error e
  | .ok (some u) =>
    if u = "" then .ok (nd.image_urls.map Content.image)
    else
      match (match preload with
             | some pd => pd.image_urls
             | none => nd.image_urls) with
      | [] => .error .indexError
      | c :: _ => .ok [Content.video u (some c)]
  | .ok none => .ok (nd.image_urls.map Content.image)

/-- The `ParseResult` built at the end of `_parse_discovery`: title, author,
text copied through, `timestamp=note_data.time // 1000` (Python `//` is
floor division, `Int.fdiv`). -/
def discoveryResult (nd : NoteData) (preload : Option NormalNotePreloadData) :
    Except PyError ParseResult :=
  match discoveryContents nd preload with
  | .error e => .error e
  | .ok contents =>
    .ok { title := nd.title, text := nd.desc,
          author := { name := nd.user.nickName, avatarUrl := some nd.user.avatar },
          contents := contents,
          timestamp := some (Int.fdiv nd.time 1000) }

/-! ### `_extract_initial_state_json`

The regex `window\.__INITIAL_STATE__=(.*?)</script>` under `re.search`:
leftmost start position wins; at a matching position the non-greedy
group captures the shortest run of non-newline characters (Python `.`
does not match `\n`) up to the next `</script>`. -/

/-- The non-greedy `(.*?)</script>` part at a fixed position: capture the
shortest newline-free prefix that is followed by the literal `</script>`. -/
def captureScript : List Char → Option (List Char)
  | [] => none
  | c :: cs =>
    if "</script>".toList.isPrefixOf (c :: cs) then some []
    else if c = '\n' then none
    else (captureScript cs).map (fun g => c :: g)

/-- The literal anchor of the embedded-state regex. -/
def initialStateAnchor : List Char :=
  "window.__INITIAL_STATE__=".toList

/-- Match the full regex at one fixed start position. -/
def matchInitialStateAt (s : List Char) : Option (List Char) :=
  if initialStateAnchor.isPrefixOf s then
    captureScript (s.drop initialStateAnchor.length)
  else none

/-- `re.search` over the whole document: try each start position left to
right. -/
def searchInitialState : List Char → Option (List Char)
  | [] => none
  | c :: cs =>
    match matchInitialStateAt (c :: cs) with
    | some g => some g
    | none => searchInitialState cs

/-- `str.replace("undefined", "null")`: replace every non-overlapping
occurrence, scanning left to right. -/
def replaceUndefined : List Char → List Char
  | 'u' :: 'n' :: 'd' :: 'e' :: 'f' :: 'i' :: 'n' :: 'e' :: 'd' :: cs =>
    'n' :: 'u' :: 'l' :: 'l' :: replaceUndefined cs
  | c :: cs => c :: replaceUndefined cs
  | [] => []

/-- `_extract_initial_state_json`, parametric in the JSON decoder
(`json.loads`, which raises `JSONDecodeError` on bad input): raise
`ParseException("小红书分享链接失效或内容已删除")` when the regex does not
match, otherwise decode the captured group after the `undefined`-to-`null`
repair. -/
def extractInitialStateJson {J : Type} (jsonLoads : List Char → Except String J)
    (html : List Char) : Except PyError J :=
  match searchInitialState html with
  | none => .error (.parseException "小红书分享链接失效或内容已删除")
  | some g =>
    match jsonLoads (replaceUndefined g) with
    | .error m => .error (.jsonDecodeError m)
    | .ok j => .ok j

/-! ### `_normalize_to_explore_url`

Needs: `urlparse(url).query` (the part after the first `?`, with the
fragment after the first `#` dropped beforehand), `parse_qs` (split on `&`,
split each field at the first `=`, skip fields without `=` or with an empty
value, `+`-to-space then percent-decode names and values), and the note-id
regex `(?:/explore/|/discovery/item/|source=note&noteId=)(\w+)`.
Percent-decoding and `\w` are modelled at the ASCII level (the Python
originals additionally handle multi-byte UTF-8 escapes and Unicode word
characters; they agree on ASCII input). -/

/-- Characters before the first occurrence of `stop` (the whole list when
absent). -/
def takeUntilChar (stop : Char) : List Char → List Char
  | [] => []
  | c :: cs => if c = stop then [] else c :: takeUntilChar stop cs

/-- Characters after the first occurrence of `stop` (empty when absent). -/
def afterChar (stop : Char) : List Char → List Char
  | [] => []
  | c :: cs => if c = stop then cs else afterChar stop cs

/-- `urlparse(url).query`: fragment split off first, then everything after
the first `?`. -/
def urlQuery (url : List Char) : List Char :=
  afterChar '?' (takeUntilChar '#' url)

/-- `str.split(sep)` (non-empty separator, full split). -/
def splitOnChar (sep : Char) : List Char → List (List Char)
  | [] => [[]]
  | c :: cs =>
    let rest := splitOnChar sep cs
    if c = sep then [] :: rest
    else
      match rest with
      | r :: rs => (c :: r) :: rs
      | [] => [[c]]

/-- `str.split("=", 1)`: split at the first `=`, `none` when absent. -/
def splitFirstEq : List Char → Option (List Char × List Char)
  | [] => none
  | c :: cs =>
    if c = '=' then some ([], cs)
    else (splitFirstEq cs).map (fun p => (c :: p.1, p.2))

/-- Value of a hexadecimal digit. -/
def hexVal (c : Char) : Option Nat :=
  if '0' ≤ c ∧ c ≤ '9' then some (c.toNat - 48)
  else if 'A' ≤ c ∧ c ≤ 'F' then some (c.toNat - 55)
  else if 'a' ≤ c ∧ c ≤ 'f' then some (c.toNat - 87)
  else none

/-- `urllib.parse.unquote` modelled at the ASCII level: each valid `%XX`
escape becomes the character with code `XX`; invalid escapes are kept
literally. -/
def percentDecode : List Char → List Char
  | [] => []
  | '%' :: a :: b :: cs =>
    match hexVal a, hexVal b with
    | some ha, some hb => Char.ofNat (16 * ha + hb) :: percentDecode cs
    | _, _ => '%' :: percentDecode (a :: b :: cs)
  | c :: cs => c :: percentDecode cs

/-- `unquote(s.replace('+', ' '))` as applied by `parse_qsl` to names and
values. -/
def unquotePlus (s : List Char) : List Char :=
  percentDecode (s.map (fun c => if c = '+' then ' ' else c))

/-- `urllib.parse.parse_qsl` with default arguments: empty fields are
skipped, fields without `=` are skipped, fields with an empty value are
skipped (`keep_blank_values=False`), names and values are unquoted. -/
def parseQsl (qs : List Char) : List (List Char × List Char) :=
  (splitOnChar '&' qs).foldr
    (fun nv acc =>
      if nv = [] then acc
      else
        match splitFirstEq nv with
        | none => acc
        | some (n, v) =>
          if v = [] then acc else (unquotePlus n, unquotePlus v) :: acc)
    []

/-- `params.get(key, [None])[0]` over `parse_qs`: the first value parsed for
`key`, `none` when the key never occurs. -/
def qsFirstValue (qs : List Char) (key : List Char) : Option (List Char) :=
  lookupList (parseQsl qs) key

/-- ASCII `\w`: letters, digits and underscore. -/
def isWordChar (c : Char) : Bool :=
  ('a' ≤ c ∧ c ≤ 'z') ∨ ('A' ≤ c ∧ c ≤ 'Z') ∨ ('0' ≤ c ∧ c ≤ '9') ∨ c = '_'

/-- The three alternatives of the note-id regex's non-capturing group, in
the order the regex tries them. -/
def idAnchors : List (List Char) :=
  ["/explore/".toList, "/discovery/item/".toList, "source=note&noteId=".toList]

/-- Match `(?:/explore/|/discovery/item/|source=note&noteId=)(\w+)` at one
fixed start position: the first alternative that is a prefix and is followed
by at least one word character wins; the group greedily captures the whole
word-character run. -/
def matchNoteIdAt (s : List Char) : Option (List Char) :=
  idAnchors.findSome? (fun anchor =>
    if anchor.isPrefixOf s then
      match (s.drop anchor.length).takeWhile isWordChar with
      | [] => none
      | w => some w
    else none)

/-- `re.search` of the note-id pattern: leftmost start position wins. -/
def searchNoteId : List Char → Option (List Char)
  | [] => none
  | c :: cs =>
    match matchNoteIdAt (c :: cs) with
    | some w => some w
    | none => searchNoteId cs

/-- `xsec_source = params.get("xsec_source", [None])[0] or "pc_feed"`: the
`or` replaces a missing (`None`) or empty value by `"pc_feed"`. -/
def xsecSourceOf (url : List Char) : List Char :=
  match qsFirstValue (urlQuery url) "xsec_source".toList with
  | some v => if v = [] then "pc_feed".toList else v
  | none => "pc_feed".toList

/-- `xsec_token = params.get("xsec_token", [None])[0]`, then interpolated
into an f-string, where Python renders `None` as the literal `None`. -/
def xsecTokenOf (url : List Char) : List Char :=
  match qsFirstValue (urlQuery url) "xsec_token".toList with
  | some v => v
  | none => "None".toList

/-- The f-string
`https://www.xiaohongshu.com/explore/{xhs_id}?xsec_source={xsec_source}&xsec_token={xsec_token}`. -/
def buildExploreUrl (xhsId src tok : List Char) : List Char :=
  "https://www.xiaohongshu.com/explore/".toList ++ xhsId ++
    "?xsec_source=".toList ++ src ++ "&xsec_token=".toList ++ tok

/-- `_normalize_to_explore_url`: raise
`ParseException("小红书分享链接不完整")` when the note-id regex does not
match, else return the id and the rebuilt explore URL. -/
def normalizeToExploreUrl (url : List Char) :
    Except PyError (List Char × List Char) :=
  match searchNoteId url with
  | none => .error (.parseException "小红书分享链接不完整")
  | some xhsId => .ok (xhsId, buildExploreUrl xhsId (xsecSourceOf url) (xsecTokenOf url))

/-! ### Association-list lemmas -/

theorem lookupList_eq_none {K V : Type} [DecidableEq K] (l : List (K × V)) (k : K)
    (h : k ∉ l.map Prod.fst) : lookupList l k = none := by
  induction l with
  | nil => rfl
  | cons p ps ih =>
    rw [List.map_cons, List.mem_cons] at h
    push_neg at h
    rw [lookupList, if_neg (fun hh => h.1 hh.symm)]
    exact ih h.2

theorem lookupList_nodup_mem {K V : Type} [DecidableEq K] (l : List (K × V)) (p : K × V)
    (hnd : (l.map Prod.fst).Nodup) (hp : p ∈ l) : lookupList l p.1 = some p.2 := by
  induction l with
  | nil => cases hp
  | cons q qs ih =>
    rw [List.map_cons, List.nodup_cons] at hnd
    rcases List.mem_cons.mp hp with h | h
    · subst h; simp [lookupList]
    · have hne : q.1 ≠ p.1 := fun he => hnd.1 (he ▸ List.mem_map_of_mem Prod.fst h)
      rw [lookupList, if_neg hne]
      exact ih hnd.2 h

theorem lookupList_tail_none {K V : Type} [DecidableEq K] (l : List (K × V)) (k : K)
    (h : lookupList l k = none) : lookupList l.tail k = none := by
  cases l with
  | nil => rfl
  | cons p ps =>
    rw [lookupList] at h
    rw [List.tail_cons]
    by_cases hpk : p.1 = k
    · rw [if_pos hpk] at h; cases h
    · rwa [if_neg hpk] at h

theorem lookupList_append_of_none {K V : Type} [DecidableEq K] (l m : List (K × V)) (k : K)
    (h : lookupList l k = none) : lookupList (l ++ m) k = lookupList m k := by
  induction l with
  | nil => rfl
  | cons p ps ih =>
    rw [lookupList] at h
    rw [List.cons_append, lookupList]
    by_cases hpk : p.1 = k
    · rw [if_pos hpk] at h; cases h
    · rw [if_neg hpk]
      exact ih (by rwa [if_neg hpk] at h)

theorem dictAssign_cons_ne {K V : Type} [DecidableEq K] (p : K × V) (ps : List (K × V))
    (k : K) (v : V) (h : p.1 ≠ k) :
    dictAssign (p :: ps) k v = p :: dictAssign ps k v := by
  unfold dictAssign
  rw [lookupList, if_neg h]
  cases hl : lookupList ps k with
  | none => rw [List.cons_append]
  | some w => rw [setValueList, if_neg h]

theorem lookupList_dictAssign {K V : Type} [DecidableEq K] (m : List (K × V))
    (k k' : K) (v : V) :
    lookupList (dictAssign m k v) k' = if k' = k then some v else lookupList m k' := by
  induction m with
  | nil =>
    show lookupList ([] ++ [(k, v)]) k' = _
    rw [List.nil_append, lookupList, lookupList]
    by_cases h : k' = k
    · rw [if_pos h, if_pos h.symm]
    · rw [if_neg h, if_neg (fun hh => h hh.symm), lookupList]
  | cons p ps ih =>
    by_cases hpk : p.1 = k
    · have h1 : dictAssign (p :: ps) k v = (k, v) :: ps := by
        unfold dictAssign
        rw [lookupList, if_pos hpk, setValueList, if_pos hpk]
      rw [h1, lookupList, lookupList]
      by_cases h2 : k' = k
      · rw [if_pos h2, if_pos h2.symm]
      · rw [if_neg h2, if_neg (fun hh => h2 hh.symm), if_neg (hpk ▸ fun hh => h2 hh.symm)]
    · rw [dictAssign_cons_ne p ps k v hpk, lookupList, ih, lookupList]
      by_cases h1 : p.1 = k'
      · have h2 : k' ≠ k := fun hh => hpk (h1.trans hh)
        rw [if_pos h1, if_neg h2, if_pos h1]
      · rw [if_neg h1]
        by_cases h2 : k' = k
        · rw [if_pos h2, if_pos h2]
        · rw [if_neg h2, if_neg h2, if_neg h1]

theorem lookupList_foldl_dictAssign {K V : Type} [DecidableEq K] (rs : List (K × V))
    (m : List (K × V)) (k : K) :
    lookupList (rs.foldl (fun acc r => dictAssign acc r.1 r.2) m) k =
      match lastValue rs k with
      | some v => some v
      | none => lookupList m k := by
  induction rs generalizing m with
  | nil => rfl
  | cons r rest ih =>
    rw [List.foldl_cons, ih, lastValue]
    cases hl : lastValue rest k with
    | some v => rfl
    | none =>
      rw [lookupList_dictAssign]
      by_cases hk : k = r.1
      · rw [if_pos hk, if_pos hk.symm]
      · rw [if_neg hk, if_neg (fun hh => hk hh.symm)]

theorem lastValue_eq_none_iff {K V : Type} [DecidableEq K] (l : List (K × V)) (k : K) :
    lastValue l k = none ↔ lookupList l k = none := by
  induction l with
  | nil => exact Iff.rfl
  | cons p ps ih =>
    rw [lastValue, lookupList]
    cases hl : lastValue ps k with
    | some v =>
      have hps : lookupList ps k ≠ none := fun h => by
        rw [ih.mpr h] at hl; cases hl
      constructor
      · intro h; cases h
      · intro h
        by_cases hpk : p.1 = k
        · rw [if_pos hpk] at h; cases h
        · rw [if_neg hpk] at h; exact absurd h hps
    | none =>
      have hps : lookupList ps k = none := ih.mp hl
      by_cases hpk : p.1 = k
      · rw [if_pos hpk, if_pos hpk]
      · rw [if_neg hpk, if_neg hpk, hps]

/-- The keyword map built by `register_parser_matcher` resolves every
keyword to the value of its last registration. -/
theorem lookupList_buildKeywordMap (classes : List ParserClass) (k : String) :
    lookupList (buildKeywordMap classes) k = lastValue (registrations classes) k := by
  rw [buildKeywordMap, lookupList_foldl_dictAssign]
  cases lastValue (registrations classes) k <;> rfl

/-- Inserting a sequence of fresh, pairwise-distinct keys into a dict that
is within capacity appends them in order and drops the oldest entries as the
capacity is exceeded. -/
theorem insertMany_fresh {K V : Type} [DecidableEq K] (kvs : List (K × V))
    (c : LimitedSizeDict K V)
    (hfresh : ∀ p ∈ kvs, lookupList c.entries p.1 = none)
    (hnodup : (kvs.map Prod.fst).Nodup)
    (hle : c.entries.length ≤ c.maxSize) :
    (insertMany c kvs).maxSize = c.maxSize ∧
    (insertMany c kvs).entries =
      (c.entries ++ kvs).drop (c.entries.length + kvs.length - c.maxSize) := by
  induction kvs generalizing c with
  | nil =>
    refine ⟨rfl, ?_⟩
    rw [insertMany, List.foldl_nil, List.append_nil, List.length_nil,
      Nat.add_zero, Nat.sub_eq_zero_of_le hle, List.drop_zero]
  | cons p rest ih =>
    have hfp : lookupList c.entries p.1 = none := hfresh p (List.mem_cons_self p rest)
    rw [List.map_cons, List.nodup_cons] at hnodup
    have hins : c.insert p.1 p.2 =
        ⟨c.maxSize,
         if c.maxSize < (c.entries ++ [(p.1, p.2)]).length
         then (c.entries ++ [(p.1, p.2)]).tail else c.entries ++ [(p.1, p.2)]⟩ := by
      unfold LimitedSizeDict.insert
      rw [hfp]
    have hstep : insertMany c (p :: rest) = insertMany (c.insert p.1 p.2) rest := rfl
    have hlen1 : (c.entries ++ [(p.1, p.2)]).length = c.entries.length + 1 := by
      rw [List.length_append, List.length_cons, List.length_nil]
    have hfreshApp : ∀ q ∈ rest, lookupList (c.entries ++ [(p.1, p.2)]) q.1 = none := by
      intro q hq
      rw [lookupList_append_of_none _ _ _ (hfresh q (List.mem_cons_of_mem p hq))]
      have hne : p.1 ≠ q.1 := fun he => hnodup.1 (he ▸ List.mem_map_of_mem Prod.fst hq)
      rw [lookupList, if_neg hne]
      rfl
    by_cases hcap : c.maxSize < c.entries.length + 1
    · have hLM : c.entries.length = c.maxSize :=
        Nat.le_antisymm hle (Nat.lt_succ_iff.mp hcap)
      have hc'ent : (c.insert p.1 p.2).entries = (c.entries ++ [(p.1, p.2)]).tail := by
        rw [hins]
        simp only [hlen1]
        rw [if_pos hcap]
      have hc'max : (c.insert p.1 p.2).maxSize = c.maxSize := by rw [hins]
      have hc'len : (c.insert p.1 p.2).entries.length = c.maxSize := by
        rw [hc'ent, List.length_tail, hlen1, Nat.add_sub_cancel, hLM]
      have hfresh' : ∀ q ∈ rest, lookupList (c.insert p.1 p.2).entries q.1 = none := by
        intro q hq
        rw [hc'ent]
        exact lookupList_tail_none _ _ (hfreshApp q hq)
      obtain ⟨ihmax, ihent⟩ := ih (c.insert p.1 p.2) hfresh' hnodup.2
        (by rw [hc'len, hc'max])
      refine ⟨by rw [hstep, ihmax, hc'max], ?_⟩
      rw [hstep, ihent, hc'max, hc'len, hc'ent]
      have h2 : c.maxSize + rest.length - c.maxSize = rest.length := by omega
      have h3 : c.entries.length + (p :: rest).length - c.maxSize = rest.length + 1 := by
        rw [List.length_cons]; omega
      rw [h2, h3]
      cases c.entries with
      | nil =>
        simp [List.drop_succ_cons]
      | cons a as =>
        rw [List.cons_append, List.tail_cons, List.cons_append, List.drop_succ_cons,
          List.append_assoc, List.singleton_append]
    · have hc'ent : (c.insert p.1 p.2).entries = c.entries ++ [(p.1, p.2)] := by
        rw [hins]
        simp only [hlen1]
        rw [if_neg hcap]
      have hc'max : (c.insert p.1 p.2).maxSize = c.maxSize := by rw [hins]
      have hc'len : (c.insert p.1 p.2).entries.length = c.entries.length + 1 := by
        rw [hc'ent, hlen1]
      have hfresh' : ∀ q ∈ rest, lookupList (c.insert p.1 p.2).entries q.1 = none := by
        intro q hq
        rw [hc'ent]
        exact hfreshApp q hq
      obtain ⟨ihmax, ihent⟩ := ih (c.insert p.1 p.2) hfresh' hnodup.2
        (by rw [hc'len, hc'max]; omega)
      refine ⟨by rw [hstep, ihmax, hc'max], ?_⟩
      rw [hstep, ihent, hc'max, hc'len, hc'ent, List.append_assoc, List.singleton_append]
      have h4 : c.entries.length + 1 + rest.length = c.entries.length + (p :: rest).length := by
        rw [List.length_cons]; omega
      rw [h4]

/-! ### Claim theorems -/

/-- Claim C2: the result cache holds at most N entries; inserting N+1
distinct keys into an initially empty cache of capacity N leaves exactly N
entries, the first-inserted (FIFO-oldest) key is absent and the remaining N
keys are each retrievable with their values. -/
theorem cache_bounded_fifo {K V : Type} [DecidableEq K] (N : Nat) (p0 : K × V)
    (rest : List (K × V)) (hlen : rest.length = N)
    (hnodup : ((p0 :: rest).map Prod.fst).Nodup) :
    (insertMany (⟨N, []⟩ : LimitedSizeDict K V) (p0 :: rest)).entries.length = N ∧
    (insertMany (⟨N, []⟩ : LimitedSizeDict K V) (p0 :: rest)).get? p0.1 = none ∧
    ∀ q ∈ rest,
      (insertMany (⟨N, []⟩ : LimitedSizeDict K V) (p0 :: rest)).get? q.1 = some q.2 := by
  obtain ⟨hmax, hent⟩ := insertMany_fresh (p0 :: rest) ⟨N, []⟩
    (fun p _ => rfl) hnodup (Nat.zero_le N)
  have hE : (insertMany (⟨N, []⟩ : LimitedSizeDict K V) (p0 :: rest)).entries = rest := by
    rw [hent]
    show List.drop (0 + (p0 :: rest).length - N) ([] ++ p0 :: rest) = rest
    rw [List.nil_append, List.length_cons, hlen]
    have h1 : 0 + (N + 1) - N = 1 := by omega
    rw [h1, List.drop_one, List.tail_cons]
  rw [List.map_cons, List.nodup_cons] at hnodup
  refine ⟨by rw [hE, hlen], ?_, ?_⟩
  · show lookupList (insertMany (⟨N, []⟩ : LimitedSizeDict K V) (p0 :: rest)).entries p0.1 = none
    rw [hE]
    exact lookupList_eq_none _ _ hnodup.1
  · intro q hq
    show lookupList (insertMany (⟨N, []⟩ : LimitedSizeDict K V) (p0 :: rest)).entries q.1 = some q.2
    rw [hE]
    exact lookupList_nodup_mem _ _ hnodup.2 hq

/-- Witness for C2: capacity 2, inserting keys a, b, c in order; a is gone,
b and c are retrievable (the spec's own scenario). -/
theorem cache_bounded_fifo_witness :
    (insertMany (⟨2, []⟩ : LimitedSizeDict String Nat) [("a", 1), ("b", 2), ("c", 3)]).get? "a" = none ∧
    (insertMany (⟨2, []⟩ : LimitedSizeDict String Nat) [("a", 1), ("b", 2), ("c", 3)]).get? "b" = some 2 ∧
    (insertMany (⟨2, []⟩ : LimitedSizeDict String Nat) [("a", 1), ("b", 2), ("c", 3)]).get? "c" = some 3 := by
  have h := cache_bounded_fifo 2 ("a", 1) [("b", 2), ("c", 3)] (by decide) (by decide)
  exact ⟨h.2.1, h.2.2 ("b", 2) (by decide), h.2.2 ("c", 3) (by decide)⟩

/-- Claim C3 is false on the code: with two registered entries sharing the
keyword "k" (first-registered parser 0, then parser 1), the keyword map
binds "k" to the LAST-registered parser 1, not to the first-registered
parser 0. -/
theorem register_first_wins_counterexample :
    lookupList (buildKeywordMap [⟨0, [("k", "pa")]⟩, ⟨1, [("k", "pb")]⟩]) "k" = some 1 ∧
    lookupList (buildKeywordMap [⟨0, [("k", "pa")]⟩, ⟨1, [("k", "pb")]⟩]) "k" ≠ some 0 := by
  decide

/-- Claim C3 (amended): whenever the same keyword is declared by more than
one registered (keyword, pattern) entry, the keyword-to-parser map ends up
bound to the parser of the LAST-registered entry for that keyword — in
general, lookup in the built map returns the value of the last registration
of the keyword. -/
theorem register_last_wins (classes : List ParserClass) (k : String) :
    lookupList (buildKeywordMap classes) k = lastValue (registrations classes) k :=
  lookupList_buildKeywordMap classes k

/-- Claim C7: on a cache miss, a keyword absent from the keyword-to-parser
map makes the handler fail with the lookup error (Python `KeyError`, the
spec's `UnknownKeyword`) instead of returning a parser; and this path is
unreachable for any keyword the link detector can produce, since every
registered keyword is found in the built map. -/
theorem unknown_keyword_dispatch :
    (∀ (km : List (String × Nat)) (parse : Nat → String → Except PyError ParseResult)
       (render : ParseResult → Except PyError Unit)
       (cache : LimitedSizeDict String ParseResult) (kw key : String),
       cache.get? key = none → lookupList km kw = none →
       parserHandler km parse render cache kw key = (cache, .error (.keyError kw))) ∧
    (∀ (classes : List ParserClass) (kw : String),
       detectorKeywordOk classes kw →
       lookupList (buildKeywordMap classes) kw ≠ none) := by
  constructor
  · intro km parse render cache kw key hmiss hkw
    unfold parserHandler
    rw [hmiss, hkw]
  · intro classes kw hdet
    rw [lookupList_buildKeywordMap]
    intro h
    exact hdet ((lastValue_eq_none_iff _ _).mp h)

/-- Witness for C7: the empty keyword map fails with `KeyError "zz"`, and
a registered keyword is always found in the built map. -/
theorem unknown_keyword_dispatch_witness :
    parserHandler [] (fun _ _ => Except.error PyError.indexError)
        (fun _ => Except.ok ()) (⟨50, []⟩ : LimitedSizeDict String ParseResult) "zz" "u"
      = ((⟨50, []⟩ : LimitedSizeDict String ParseResult),
         Except.error (PyError.keyError "zz")) ∧
    lookupList (buildKeywordMap [⟨7, [("k", "p")]⟩]) "k" ≠ none := by
  refine ⟨unknown_keyword_dispatch.1 [] (fun _ _ => Except.error PyError.indexError)
    (fun _ => Except.ok ()) (⟨50, []⟩ : LimitedSizeDict String ParseResult) "zz" "u" rfl rfl,
    unknown_keyword_dispatch.2 [⟨7, [("k", "p")]⟩] "k" ?_⟩
  show lookupList (registrations [⟨7, [("k", "p")]⟩]) "k" ≠ none
  decide

/-- Claim C1: the handler inserts the resolved result into the cache only
after both resolution and rendering complete without raising; when parse or
render raises, the whole cache — in particular the entry for the request's
key — is left exactly as it was, so a subsequent identical request on a
previously-empty key misses the cache again and re-runs the very same
resolution from scratch. -/
theorem handler_no_negative_caching
    (km : List (String × Nat)) (parse : Nat → String → Except PyError ParseResult)
    (render : ParseResult → Except PyError Unit)
    (cache : LimitedSizeDict String ParseResult) (kw key : String) :
    (∀ e, (parserHandler km parse render cache kw key).2 = .error e →
       (parserHandler km parse render cache kw key).1 = cache) ∧
    (∀ r, (parserHandler km parse render cache kw key).2 = .ok r →
       (parserHandler km parse render cache kw key).1 = cache.insert key r) ∧
    (cache.get? key = none →
       ∀ e, (parserHandler km parse render cache kw key).2 = .error e →
         ((parserHandler km parse render cache kw key).1.get? key = none ∧
          parserHandler km parse render (parserHandler km parse render cache kw key).1 kw key
            = parserHandler km parse render cache kw key)) := by
  unfold parserHandler
  cases hget : cache.get? key with
  | some r0 =>
    cases hrender : render r0 with
    | error e => simp [hget, hrender]
    | ok u => simp [hget, hrender]
  | none =>
    cases hlk : lookupList km kw with
    | none => simp [hget, hlk]
    | some pid =>
      cases hp : parse pid key with
      | error e => simp [hget, hlk, hp]
      | ok r =>
        cases hr : render r with
        | error e => simp [hget, hlk, hp, hr]
        | ok u => simp [hget, hlk, hp, hr]

/-- Witness for C1: a failing parse leaves the empty cache untouched. -/
theorem handler_no_negative_caching_witness :
    (parserHandler [("k", 0)] (fun _ _ => Except.error PyError.indexError)
        (fun _ => Except.ok ()) (⟨50, []⟩ : LimitedSizeDict String ParseResult) "k" "u").1
      = (⟨50, []⟩ : LimitedSizeDict String ParseResult) :=
  (handler_no_negative_caching [("k", 0)] (fun _ _ => Except.error PyError.indexError)
    (fun _ => Except.ok ()) (⟨50, []⟩ : LimitedSizeDict String ParseResult) "k" "u").1
    PyError.indexError rfl

/-- Claim C4: `Video.video_url` selects the playable URL by trying the
codec variants in fixed priority order, taking the first non-empty list:
when both an h265 (watermark-free) and an h264 (watermarked) list are
present and non-empty, the h265 head's `masterUrl` is returned; when no
variant list is present at all, the result is `None`. -/
theorem video_variant_preference :
    (∀ (v : Video) (d : List (String × String)) (l : List (List (String × String)))
       (d2 : List (String × String)) (l2 : List (List (String × String))) (u : String),
       v.media.stream.h265 = some (d :: l) →
       v.media.stream.h264 = some (d2 :: l2) →
       dictGetItem d "masterUrl" = .ok u →
       v.video_url = .ok (some u)) ∧
    (∀ v : Video, v.media.stream.h265 = none → v.media.stream.h264 = none →
       v.media.stream.av1 = none → v.media.stream.h266 = none →
       v.video_url = .ok none) := by
  constructor
  · intro v d l d2 l2 u h5 h4 hm
    unfold Video.video_url
    rw [h5]
    show Except.map some (dictGetItem d "masterUrl") = Except.ok (some u)
    rw [hm]
    rfl
  · intro v h5 h4 ha h6
    unfold Video.video_url
    rw [h5, h4, ha, h6]

/-- Witness for C4: a stream carrying both variants yields the h265 URL. -/
theorem video_variant_preference_witness :
    Video.video_url
        ⟨⟨⟨some [[("masterUrl", "u264")]], some [[("masterUrl", "u265")]], none, none⟩⟩⟩
      = Except.ok (some "u265") :=
  video_variant_preference.1
    ⟨⟨⟨some [[("masterUrl", "u264")]], some [[("masterUrl", "u265")]], none, none⟩⟩⟩
    [("masterUrl", "u265")] [] [("masterUrl", "u264")] [] "u265" rfl rfl rfl

/-- Claim C5: `_extract_initial_state_json` raises `ParseException` with
the "link expired or removed" reason exactly when the embedded-state regex
finds no match in the HTML; on a match, the captured blob has every literal
`undefined` replaced by `null` and is handed to the JSON decoder, whose
result is returned (its own failure surfaces as `JSONDecodeError`, never as
`ParseException`). -/
theorem extract_initial_state_spec {J : Type} (jsonLoads : List Char → Except String J)
    (html : List Char) :
    ((∃ r, extractInitialStateJson jsonLoads html = .error (.parseException r)) ↔
       searchInitialState html = none) ∧
    (searchInitialState html = none →
       extractInitialStateJson jsonLoads html =
         .error (.parseException "小红书分享链接失效或内容已删除")) ∧
    (∀ g, searchInitialState html = some g →
       extractInitialStateJson jsonLoads html =
         match jsonLoads (replaceUndefined g) with
         | .error m => .error (.jsonDecodeError m)
         | .ok j => .ok j) := by
  unfold extractInitialStateJson
  cases hs : searchInitialState html with
  | none =>
    refine ⟨⟨fun _ => rfl, fun _ => ⟨"小红书分享链接失效或内容已删除", rfl⟩⟩,
      fun _ => rfl, ?_⟩
    intro g hg
    exact Option.noConfusion hg
  | some g0 =>
    refine ⟨⟨?_, fun h => Option.noConfusion h⟩, fun h => Option.noConfusion h, ?_⟩
    · rintro ⟨r, hr⟩
      have hr' : (match jsonLoads (replaceUndefined g0) with
          | Except.error m => Except.error (PyError.jsonDecodeError m)
          | Except.ok j => (Except.ok j : Except PyError J)) =
          Except.error (PyError.parseException r) := hr
      cases hj : jsonLoads (replaceUndefined g0) with
      | error m => rw [hj] at hr'; simp at hr'
      | ok j => rw [hj] at hr'; simp at hr'
    · intro g hg
      injection hg with h
      subst h
      rfl

/-- Witness for C5: a document with the anchor and a literal `undefined`
blob decodes the repaired blob `null` (with the identity decoder). -/
theorem extract_initial_state_witness :
    extractInitialStateJson (fun s => Except.ok s)
        "abc window.__INITIAL_STATE__=undefined</script> tail".toList
      = Except.ok "null".toList := by
  have h := (extract_initial_state_spec (fun s => Except.ok s)
    "abc window.__INITIAL_STATE__=undefined</script> tail".toList).2.2
    "undefined".toList (by decide)
  rw [h]
  rfl

/-- Claim C6: explore-endpoint content assembly — a video note with a
playable (truthy) URL yields exactly one Video item whose cover is the
first image URL when the image list is non-empty and no cover otherwise;
a non-video note yields one Image item per image URL in source order. -/
theorem explore_content_assembly (nd : NoteDetail) :
    (∀ u, nd.video_url = .ok (some u) → u ≠ "" → nd.image_urls = [] →
       exploreContents nd = .ok [Content.video u none]) ∧
    (∀ u c l, nd.video_url = .ok (some u) → u ≠ "" → nd.image_urls = c :: l →
       exploreContents nd = .ok [Content.video u (some c)]) ∧
    (nd.video_url = .ok none →
       exploreContents nd = .ok (nd.image_urls.map Content.image)) := by
  refine ⟨?_, ?_, ?_⟩
  · intro u hv hu himg
    unfold exploreContents
    rw [hv]
    show (if u = "" then Except.ok (nd.image_urls.map Content.image)
          else Except.ok [Content.video u nd.image_urls.head?]) = _
    rw [if_neg hu, himg]
    rfl
  · intro u c l hv hu himg
    unfold exploreContents
    rw [hv]
    show (if u = "" then Except.ok (nd.image_urls.map Content.image)
          else Except.ok [Content.video u nd.image_urls.head?]) = _
    rw [if_neg hu, himg]
    rfl
  · intro hv
    unfold exploreContents
    rw [hv]

/-- Witness for C6: a video note with one image gets that image as cover. -/
theorem explore_content_assembly_witness :
    exploreContents
        ⟨"video", "T", "D", ⟨"N", "A"⟩, [⟨"c1"⟩],
         some ⟨⟨⟨none, some [[("masterUrl", "v")]], none, none⟩⟩⟩⟩
      = Except.ok [Content.video "v" (some "c1")] :=
  (explore_content_assembly
    ⟨"video", "T", "D", ⟨"N", "A"⟩, [⟨"c1"⟩],
     some ⟨⟨⟨none, some [[("masterUrl", "v")]], none, none⟩⟩⟩⟩).2.1
    "v" "c1" [] rfl (by decide) rfl

/-- Claim C8: the discovery-endpoint result carries
`timestamp = time // 1000` (floor division, whole seconds) and copies
title, desc and author through from the decoded note unchanged. -/
theorem discovery_result_fields (nd : NoteData) (preload : Option NormalNotePreloadData)
    (r : ParseResult) (h : discoveryResult nd preload = .ok r) :
    r.timestamp = some (Int.fdiv nd.time 1000) ∧
    r.title = nd.title ∧ r.text = nd.desc ∧
    r.author = ⟨nd.user.nickName, some nd.user.avatar⟩ := by
  unfold discoveryResult at h
  cases hc : discoveryContents nd preload with
  | error e =>
    rw [hc] at h
    exact Except.noConfusion h
  | ok contents =>
    rw [hc] at h
    injection h with h'
    subst h'
    exact ⟨rfl, rfl, rfl, rfl⟩

/-- Witness for C8: a concrete image note with millisecond time
1700000123456 yields timestamp 1700000123. -/
theorem discovery_result_fields_witness :
    (⟨"T", "D", ⟨"N", some "A"⟩, [Content.image "i1"], some 1700000123⟩ : ParseResult).timestamp
        = some (Int.fdiv (1700000123456 : Int) 1000) ∧
    (⟨"T", "D", ⟨"N", some "A"⟩, [Content.image "i1"], some 1700000123⟩ : ParseResult).title
        = "T" := by
  have h := discovery_result_fields
    ⟨"normal", "T", "D", ⟨"N", "A"⟩, 1700000123456, 0, [⟨"i1", none⟩], none⟩ none
    ⟨"T", "D", ⟨"N", some "A"⟩, [Content.image "i1"], some 1700000123⟩ rfl
  exact ⟨h.1, h.2.1⟩

/-- Claim C9: in the discovery path, a video note with a playable URL whose
preload image list and watermarked image list are both empty fails with a
raw `IndexError` (not a `ParseException`), while the explore path tolerates
an empty image list by emitting the Video item with no cover. -/
theorem discovery_empty_images_index_error (nd : NoteData)
    (preload : Option NormalNotePreloadData) (u : String)
    (hv : nd.video_url = .ok (some u)) (hu : u ≠ "")
    (hpre : ∀ pd, preload = some pd → pd.image_urls = [])
    (hnote : nd.image_urls = []) :
    discoveryContents nd preload = .error .indexError ∧
    (∀ reason, PyError.indexError ≠ PyError.parseException reason) ∧
    (∀ (ndx : NoteDetail) (u2 : String), ndx.video_url = .ok (some u2) → u2 ≠ "" →
       ndx.image_urls = [] → exploreContents ndx = .ok [Content.video u2 none]) := by
  refine ⟨?_, fun reason h => PyError.noConfusion h, ?_⟩
  · unfold discoveryContents
    rw [hv]
    show (if u = "" then Except.ok (nd.image_urls.map Content.image)
          else match (match preload with
                      | some pd => pd.image_urls
                      | none => nd.image_urls) with
               | [] => Except.error PyError.indexError
               | c :: _ => Except.ok [Content.video u (some c)]) = _
    rw [if_neg hu]
    cases preload with
    | none => rw [hnote]
    | some pd =>
      show (match pd.image_urls with
            | [] => Except.error PyError.indexError
            | c :: _ => Except.ok [Content.video u (some c)]) = _
      rw [hpre pd rfl]
  · intro ndx u2 hv2 hu2 himg
    unfold exploreContents
    rw [hv2]
    show (if u2 = "" then Except.ok (ndx.image_urls.map Content.image)
          else Except.ok [Content.video u2 ndx.image_urls.head?]) = _
    rw [if_neg hu2, himg]
    rfl

/-- Witness for C9: a concrete video note with empty image lists raises
`IndexError` in the discovery path. -/
theorem discovery_empty_images_witness :
    discoveryContents
        ⟨"video", "T", "D", ⟨"N", "A"⟩, 5, 6, [],
         some ⟨⟨⟨none, some [[("masterUrl", "v")]], none, none⟩⟩⟩⟩ none
      = Except.error PyError.indexError :=
  (discovery_empty_images_index_error
    ⟨"video", "T", "D", ⟨"N", "A"⟩, 5, 6, [],
     some ⟨⟨⟨none, some [[("masterUrl", "v")]], none, none⟩⟩⟩⟩ none "v"
    rfl (by decide) (fun pd hpd => Option.noConfusion hpd) rfl).1

/-- Claim C10: URL normalization to the explore form — when the note-id
regex matches, the rebuilt explore URL takes `xsec_source=pc_feed` when the
input carries no `xsec_source` query parameter and the literal `None` as
`xsec_token` when the input carries no `xsec_token` parameter; when no note
id is recognized, a `ParseException` is raised. -/
theorem normalize_explore_url_spec (url : List Char) :
    (searchNoteId url = none →
       normalizeToExploreUrl url = .error (.parseException "小红书分享链接不完整")) ∧
    (∀ xid, searchNoteId url = some xid →
       normalizeToExploreUrl url =
         .ok (xid, buildExploreUrl xid (xsecSourceOf url) (xsecTokenOf url)) ∧
       (qsFirstValue (urlQuery url) "xsec_source".toList = none →
          xsecSourceOf url = "pc_feed".toList) ∧
       (qsFirstValue (urlQuery url) "xsec_token".toList = none →
          xsecTokenOf url = "None".toList)) := by
  constructor
  · intro h
    unfold normalizeToExploreUrl
    rw [h]
  · intro xid h
    refine ⟨by unfold normalizeToExploreUrl; rw [h], ?_, ?_⟩
    · intro hq
      unfold xsecSourceOf
      rw [hq]
    · intro hq
      unfold xsecTokenOf
      rw [hq]

/-- Witness for C10: a discovery-item URL without `xsec_source` and
`xsec_token` normalizes to the explore URL with the defaults filled in. -/
theorem normalize_explore_url_witness :
    normalizeToExploreUrl
        "https://www.xiaohongshu.com/discovery/item/abc123DEF?foo=bar&x=1".toList
      = Except.ok ("abc123DEF".toList,
          "https://www.xiaohongshu.com/explore/abc123DEF?xsec_source=pc_feed&xsec_token=None".toList) := by
  have h := (normalize_explore_url_spec
    "https://www.xiaohongshu.com/discovery/item/abc123DEF?foo=bar&x=1".toList).2
    "abc123DEF".toList (by decide)
  rw [h.1, h.2.1 (by decide), h.2.2 (by decide)]
  rfl

end NonebotParser
